import Mathlib

/-!
Verification of the discovery-and-registry core of `sa_metameta`.

The registries (`MetaMeta`, `MetaEngine`, `MetaSchema` and their async
variants) all store their children in a Python `dict` keyed by name.  We
embed that store as an association list in insertion order, with the
`dict` update discipline: assigning to an existing key replaces the value
in place, assigning to a fresh key appends at the end.
-/

/-- Python `d[k] = v` on an insertion-ordered dict: replace in place when the
key exists, append otherwise. -/
def dictSet {V : Type} : List (String × V) → String → V → List (String × V)
  | [], k, v => [(k, v)]
  | (k₀, v₀) :: rest, k, v =>
    if k₀ = k then (k, v) :: rest else (k₀, v₀) :: dictSet rest k v

/-- Python `d.get(k)` / `k in d`: first (and, with unique keys, only) binding. -/
def dictGet {V : Type} : List (String × V) → String → Option V
  | [], _ => none
  | (k₀, v₀) :: rest, k => if k₀ = k then some v₀ else dictGet rest k

/-- The keys of the dict in insertion order (Python `iter(d)`). -/
def dictKeys {V : Type} (d : List (String × V)) : List String := d.map Prod.fst

/-- Sequential assignment `for (k, v) in ps: d[k] = v`. -/
def dictSetAll {V : Type} (d : List (String × V)) (ps : List (String × V)) :
    List (String × V) :=
  ps.foldl (fun acc p => dictSet acc p.1 p.2) d

/-!
Python compares strings lexicographically by code point; `sorted` uses that
order.  Lexicographic comparison over the character lists, executable so
that concrete registries can be evaluated.
-/

/-- Lexicographic code-point comparison of character lists (Python string `<=`). -/
def charsLe : List Char → List Char → Bool
  | [], _ => true
  | _ :: _, [] => false
  | a :: as, b :: bs => if a < b then true else if b < a then false else charsLe as bs

/-- Python string comparison `a <= b`. -/
def strLe (a b : String) : Bool := charsLe a.data b.data

/-- `strLe` as a relation, for use with sorting predicates. -/
def strLeP (a b : String) : Prop := strLe a b = true

instance : DecidableRel strLeP := fun _ _ => instDecidableEqBool _ _

/-- Exceptions of the `sa_metameta.exceptions` hierarchy: the `_item_type`
discriminants of the `MetaMeta*NotFoundError` subclasses. -/
inductive ErrKind where
  | item
  | engine
  | schema
  | table
deriving DecidableEq

/-- Errors raised by the embedded code: `MetaMetaError(msg)`, the typed
`MetaMeta*NotFoundError(kind, key)` family, and Python `TypeError`. -/
inductive PyErr where
  | metaMetaError (msg : String)
  | notFound (kind : ErrKind) (key : String)
  | typeError
deriving DecidableEq

/-!
`MetaMetaBase` enumeration and lookup (src/sa_metameta/__init__.py).
`keys`, `items` and `values` yield straight from `self._items`, hence in
insertion order; `list_item_keys` is `sorted(self._items)`.
-/

/-- `MetaMetaBase.keys`: yields the keys of `_items` in dict order. -/
def baseKeys {V : Type} (items : List (String × V)) : List String := dictKeys items

/-- `MetaMetaBase.items`: yields the `(key, value)` pairs of `_items` in dict order. -/
def baseItems {V : Type} (items : List (String × V)) : List (String × V) := items

/-- `MetaMetaBase.values`: yields the values of `_items` in dict order. -/
def baseValues {V : Type} (items : List (String × V)) : List V := items.map Prod.snd

/-- `MetaMetaBase.list_item_keys`: `sorted(self._items)` — the keys, sorted
ascending by Python string comparison, as a materialized list. -/
def listItemKeys {V : Type} (items : List (String × V)) : List String :=
  List.insertionSort strLeP (dictKeys items)

/-- `MetaMetaBase.__getitem__`: raise `self._notfound_exc(key)` on a miss. -/
def getitemImpl {V : Type} (kind : ErrKind) (items : List (String × V)) (k : String) :
    Except PyErr V :=
  match dictGet items k with
  | some v => Except.ok v
  | none => Except.error (PyErr.notFound kind k)

/-- Outcome of Python attribute access on a registry object. -/
inductive AttrResult (V : Type) where
  | classAttr
  | item (v : V)
  | raised (e : PyErr)
deriving DecidableEq

/-- Attribute access on a registry: Python resolves genuine instance/class
attributes first; only when that fails is `MetaMetaBase.__getattr__` invoked,
which returns the entry of `_items` when present and otherwise raises
`self._notfound_exc(attr)` (the inner `super().__getattr__` call always
raises `AttributeError`, which is caught). -/
def getattrImpl {V : Type} (attrNames : List String) (kind : ErrKind)
    (items : List (String × V)) (a : String) : AttrResult V :=
  if attrNames.contains a then AttrResult.classAttr
  else
    match dictGet items a with
    | some v => AttrResult.item v
    | none => AttrResult.raised (PyErr.notFound kind a)

/-- Attributes defined on every registry: set by `MetaMetaBase.__init__` plus
the methods and properties of the `MetaMetaBase` class body. -/
def metaMetaBaseAttrNames : List String :=
  ["_items", "name", "_notfound_exc",
   "__init__", "__iter__", "__getitem__", "__getattr__", "__contains__",
   "__repr__", "__str__", "child_class", "keys", "items", "values",
   "list_item_keys"]

/-- Attributes of a `MetaMeta` instance (base plus the `MetaMeta` class body). -/
def metaMetaAttrNames : List String :=
  metaMetaBaseAttrNames ++ ["engines", "inverse_child_class", "register_engine"]

/-- Attributes of a `MetaEngine` instance (base plus `MetaEngine.__init__`
and the `MetaEngine` class body). -/
def metaEngineAttrNames : List String :=
  metaMetaBaseAttrNames ++
  ["_metameta", "_engine", "sessionmaker", "_session_class", "ns_excl_pref_regexs",
   "metameta", "engine", "schemata", "resolve_engine_name", "register_sessionmaker",
   "session", "register_schema", "_build_discover_engine_query",
   "_get_engine_schemata", "discover", "as_yaml", "as_ddl"]

/-- Attributes of a `MetaSchema` instance (base plus `MetaSchema.__init__`
and the `MetaSchema` class body). -/
def metaSchemaAttrNames : List String :=
  metaMetaBaseAttrNames ++
  ["_metaengine", "_metadata", "tables", "metadata", "metameta", "metaengine",
   "engine", "_reflect_objects", "_reindex_tables", "discover", "as_ddl", "as_yaml"]

/-- Python truthiness of an optional string: `None` and the empty string are
falsey. -/
def pyFalsyStr : Option String → Bool
  | none => true
  | some s => s.isEmpty

/-- `MetaEngine.resolve_engine_name(engine_name, engine)`: return the override
when truthy, else `engine.url.database` when truthy, else raise
`MetaMetaError`. -/
def resolveEngineName (engineName engineDatabase : Option String) : Except PyErr String :=
  if pyFalsyStr engineName then
    if pyFalsyStr engineDatabase then
      Except.error (PyErr.metaMetaError
        "Cannot detect engine name from connection. Specify engine name in arguments.")
    else
      Except.ok (engineDatabase.getD "")
  else
    Except.ok (engineName.getD "")

/-- The two Connection Registry classes a Catalog Root can instantiate. -/
inductive RegistryVariant where
  | metaEngine
  | aMetaEngine
deriving DecidableEq

/-- A stored Connection Registry: which class was instantiated and the
resolved name it was constructed with. -/
structure MetaEngineObj where
  variant : RegistryVariant
  name : String
deriving DecidableEq

/-- `MetaMeta.register_engine` (also inherited by `AMetaMeta`).
`classIsMetameta` is `self.__class__.__name__ == "MetaMeta"`; `engineIsAsync`
is `isinstance(engine, AsyncEngine)` (a sync engine is `sa.engine.Engine`;
`AsyncEngine` is not a subclass of it).  On the inverse branch the source
reads the attribute `self.inverse_child_claass` — not a defined attribute
(the property is spelled `inverse_child_class`) — so the access goes through
`MetaMetaBase.__getattr__`: an `_items` entry of that name would be returned
and then called (a `TypeError`), and otherwise the typed not-found error is
raised.  `child_class` is `MetaEngine` on `MetaMeta` and `AMetaEngine` on
`AMetaMeta`. -/
def registerEngine (classIsMetameta : Bool) (items : List (String × MetaEngineObj))
    (engineIsAsync : Bool) (engineDatabase engineName : Option String) :
    Except PyErr (List (String × MetaEngineObj)) :=
  if (engineIsAsync && classIsMetameta) || (!engineIsAsync && !classIsMetameta) then
    match dictGet items "inverse_child_claass" with
    | some _ => Except.error PyErr.typeError
    | none => Except.error (PyErr.notFound ErrKind.engine "inverse_child_claass")
  else
    match resolveEngineName engineName engineDatabase with
    | Except.error e => Except.error e
    | Except.ok nm =>
      Except.ok (dictSet items nm
        ⟨if classIsMetameta then RegistryVariant.metaEngine else RegistryVariant.aMetaEngine, nm⟩)

/-- `MetaEngine.register_schema(schema_name)`: construct a fresh child schema
object and assign `self._items[schema_name] = schema`. -/
def registerSchema {V : Type} (items : List (String × V)) (schemaName : String)
    (schema : V) : List (String × V) :=
  dictSet items schemaName schema

/-- `MetaEngine._build_discover_engine_query`: one `schema_name !~ :key`
predicate per configured exclusion pattern, joined with " and " (empty
when no exclusions are configured), spliced into the f-string literal of
the source; the exclusion mapping itself is returned as the parameters. -/
def buildDiscoverEngineQuery (nsExclRegexs : List (String × String)) :
    String × List (String × String) :=
  let exclusions :=
    if nsExclRegexs.isEmpty then ""
    else String.intercalate " and " (nsExclRegexs.map (fun kv => "schema_name !~ :" ++ kv.1))
  ("\n            select schema_name\n            from information_schema.schemata\n            where "
    ++ exclusions ++ "\n            ;\n        ", nsExclRegexs)

/-- Whitespace characters of the query text. -/
def isSqlSpace (c : Char) : Bool := c = ' ' || c = '\n' || c = '\t' || c = '\r'

/-- Scan for the first occurrence of `pat` and return what follows it. -/
def dropUntilAfter (pat : List Char) : List Char → Option (List Char)
  | [] => none
  | c :: cs =>
    if pat.isPrefixOf (c :: cs) then some ((c :: cs).drop pat.length)
    else dropUntilAfter pat cs

/-- Take characters up to the terminating semicolon. -/
def takeUntilSemi : List Char → List Char
  | [] => []
  | c :: cs => if c = ';' then [] else c :: takeUntilSemi cs

/-- Modelled from the spec: the minimal well-formedness condition it imposes
on the schema-listing query — if the text has a `where` keyword, the
predicate between it and the closing `;` must contain some non-whitespace
character (an empty `WHERE` predicate is not well-formed SQL). -/
def sqlWhereWellFormed (q : String) : Bool :=
  match dropUntilAfter "where".data q.data with
  | none => true
  | some rest => (takeUntilSemi rest).any (fun c => !isSqlSpace c)

/-- Python `tab.startswith(pre)`. -/
def pyStartswith (tab pre : String) : Bool := pre.data.isPrefixOf tab.data

/-- Python `tab[n:]` (drop the first `n` characters). -/
def pyDropChars (tab : String) (n : Nat) : String := String.mk (tab.data.drop n)

/-- The per-key step of `MetaSchema._reindex_tables`: strip the leading
`"<schema_name>."` when present (`mstab = tab[lprefix:]`), otherwise keep
the key unchanged. -/
def stripSchemaKey (schemaName tab : String) : String :=
  let pfx := schemaName ++ "."
  if pyStartswith tab pfx then pyDropChars tab pfx.length else tab

/-- `MetaSchema._reindex_tables` (also inherited by `AMetaSchema`): for every
table key of the reflection namespace `self._metadata.tables`, assign the
table into `self._items` under the stripped key. -/
def reindexTables {V : Type} (schemaName : String) (metadataTables : List (String × V))
    (items : List (String × V)) : List (String × V) :=
  metadataTables.foldl (fun acc p => dictSet acc (stripSchemaKey schemaName p.1) p.2) items

/-- A single-quote character, for building the not-found messages. -/
def sglQuote : String := String.singleton (Char.ofNat 39)

/-- `MetaMetaNotFoundError.__init__(*args)` for a subclass whose `_item_type`
is `itemType`: with no argument it raises
`MetaMetaError("<class name> exceptions requires a key argument")`; otherwise
the exception arguments become the formatted message followed by the
space-join of the remaining arguments, each kept only when truthy. -/
def notFoundInitMessages (className itemType : String) (args : List String) :
    Except PyErr (List String) :=
  match args with
  | [] => Except.error (PyErr.metaMetaError (className ++ " exceptions requires a key argument"))
  | key :: rest =>
    let msg := "No " ++ itemType ++ " named " ++ sglQuote ++ key ++ sglQuote ++ " was found."
    let joined := String.intercalate " " rest
    Except.ok ([msg, joined].filter (fun m => !m.isEmpty))

/-- `AMetaEngine` inherits `_build_discover_engine_query` from `MetaEngine`
unchanged (`asyncmeta` overrides only `child_class`, `_get_engine_schemata`
and `discover`). -/
def aBuildDiscoverEngineQuery : List (String × String) → String × List (String × String) :=
  buildDiscoverEngineQuery

/-- `AMetaEngine` inherits `resolve_engine_name` from `MetaEngine` unchanged. -/
def aResolveEngineName : Option String → Option String → Except PyErr String :=
  resolveEngineName

/-- `AMetaEngine` inherits `register_schema` from `MetaEngine` unchanged. -/
def aRegisterSchema {V : Type} : List (String × V) → String → V → List (String × V) :=
  registerSchema

/-- `AMetaSchema` inherits `_reindex_tables` from `MetaSchema` unchanged
(`asyncmeta` overrides only `_get_reflection`, `_reflect_objects` and
`discover`). -/
def aReindexTables {V : Type} : String → List (String × V) → List (String × V) → List (String × V) :=
  reindexTables

/-!
Association-list lemmas for the dict embedding.
-/

theorem dictGet_eq_none_iff {V : Type} (d : List (String × V)) (k : String) :
    dictGet d k = none ↔ k ∉ dictKeys d := by
  induction d with
  | nil => simp [dictGet, dictKeys]
  | cons p rest ih =>
    obtain ⟨k₀, v₀⟩ := p
    by_cases h : k₀ = k
    · subst h; simp [dictGet, dictKeys]
    · simp [dictGet, dictKeys, h, Ne.symm h] at ih ⊢
      exact ih

theorem dictSet_of_get_none {V : Type} (d : List (String × V)) (k : String) (v : V)
    (h : dictGet d k = none) : dictSet d k v = d ++ [(k, v)] := by
  induction d with
  | nil => rfl
  | cons p rest ih =>
    obtain ⟨k₀, v₀⟩ := p
    by_cases hk : k₀ = k
    · simp [dictGet, hk] at h
    · simp [dictGet, hk] at h
      simp [dictSet, hk, ih h]

theorem dictGet_append_left_none {V : Type} (d₁ d₂ : List (String × V)) (k : String)
    (h : dictGet d₁ k = none) : dictGet (d₁ ++ d₂) k = dictGet d₂ k := by
  induction d₁ with
  | nil => rfl
  | cons p rest ih =>
    obtain ⟨k₀, v₀⟩ := p
    by_cases hk : k₀ = k
    · simp [dictGet, hk] at h
    · simp [dictGet, hk] at h ⊢
      exact ih h

theorem dictSetAll_eq_append {V : Type} (ps : List (String × V)) (d : List (String × V))
    (hn : (dictKeys ps).Nodup) (hd : ∀ p ∈ ps, dictGet d p.1 = none) :
    dictSetAll d ps = d ++ ps := by
  induction ps generalizing d with
  | nil => simp [dictSetAll]
  | cons p rest ih =>
    obtain ⟨k, v⟩ := p
    have hk : dictGet d k = none := hd (k, v) (List.mem_cons_self _ _)
    have step : dictSet d k v = d ++ [(k, v)] := dictSet_of_get_none d k v hk
    have hn2 : (k :: dictKeys rest).Nodup := by
      simpa [dictKeys] using hn
    have hn' : (dictKeys rest).Nodup := (List.nodup_cons.1 hn2).2
    have hknotin : k ∉ dictKeys rest := (List.nodup_cons.1 hn2).1
    have hd' : ∀ q ∈ rest, dictGet (d ++ [(k, v)]) q.1 = none := by
      intro q hq
      have hq₁ : dictGet d q.1 = none := hd q (List.mem_cons_of_mem _ hq)
      have hqk : q.1 ≠ k := by
        intro hcontra
        exact hknotin (hcontra ▸ (List.mem_map_of_mem Prod.fst hq))
      rw [dictGet_append_left_none _ _ _ hq₁]
      simp [dictGet, Ne.symm hqk]
    calc dictSetAll d ((k, v) :: rest)
        = dictSetAll (dictSet d k v) rest := rfl
      _ = dictSet d k v ++ rest := ih (dictSet d k v) hn' (step ▸ hd')
      _ = d ++ (k, v) :: rest := by rw [step, List.append_assoc]; rfl

theorem mem_of_dictGet_some {V : Type} (d : List (String × V)) (k : String) (v : V)
    (h : dictGet d k = some v) : (k, v) ∈ d := by
  induction d with
  | nil => simp [dictGet] at h
  | cons p rest ih =>
    obtain ⟨k₀, v₀⟩ := p
    by_cases hk : k₀ = k
    · subst hk
      simp [dictGet] at h
      simp [h]
    · simp [dictGet, hk] at h
      exact List.mem_cons_of_mem _ (ih h)

theorem dictGet_of_mem_nodup {V : Type} (d : List (String × V)) (k : String) (v : V)
    (hn : (dictKeys d).Nodup) (hm : (k, v) ∈ d) : dictGet d k = some v := by
  induction d with
  | nil => simp at hm
  | cons p rest ih =>
    obtain ⟨k₀, v₀⟩ := p
    rcases List.mem_cons.1 hm with heq | hmem
    · have h1 : k = k₀ := congrArg Prod.fst heq
      have h2 : v = v₀ := congrArg Prod.snd heq
      subst h1; subst h2
      simp [dictGet]
    · have hk : k₀ ≠ k := by
        intro hcontra
        subst hcontra
        have : k₀ ∈ dictKeys rest := List.mem_map_of_mem Prod.fst hmem
        exact (List.nodup_cons.1 (by simpa [dictKeys] using hn)).1 this
      have hn' : (dictKeys rest).Nodup := by simpa [dictKeys] using hn.of_cons
      simp [dictGet, hk]
      exact ih hn' hmem

theorem dictKeys_dictSet {V : Type} (d : List (String × V)) (k : String) (v : V) :
    dictKeys (dictSet d k v) = if k ∈ dictKeys d then dictKeys d else dictKeys d ++ [k] := by
  induction d with
  | nil => simp [dictSet, dictKeys]
  | cons p rest ih =>
    obtain ⟨k₀, v₀⟩ := p
    by_cases hk : k₀ = k
    · subst hk; simp [dictSet, dictKeys]
    · simp [dictSet, dictKeys, hk, Ne.symm hk] at ih ⊢
      rw [ih]
      by_cases hmem : k ∈ List.map Prod.fst rest <;> simp [hmem, Ne.symm hk]

theorem dictKeys_dictSet_nodup {V : Type} (d : List (String × V)) (k : String) (v : V)
    (h : (dictKeys d).Nodup) : (dictKeys (dictSet d k v)).Nodup := by
  rw [dictKeys_dictSet]
  by_cases hmem : k ∈ dictKeys d
  · simpa [hmem]
  · simpa [hmem, List.nodup_append] using h

theorem mem_dictKeys_dictSet {V : Type} (d : List (String × V)) (k : String) (v : V) :
    k ∈ dictKeys (dictSet d k v) := by
  rw [dictKeys_dictSet]
  by_cases hmem : k ∈ dictKeys d <;> simp [hmem]

theorem dictGet_dictSet_self {V : Type} (d : List (String × V)) (k : String) (v : V) :
    dictGet (dictSet d k v) k = some v := by
  induction d with
  | nil => simp [dictSet, dictGet]
  | cons p rest ih =>
    obtain ⟨k₀, v₀⟩ := p
    by_cases hk : k₀ = k
    · subst hk; simp [dictSet, dictGet]
    · simp [dictSet, dictGet, hk, ih]

/-!
The Python string order is total, transitive and antisymmetric.
-/

theorem charsLe_total (as bs : List Char) : charsLe as bs = true ∨ charsLe bs as = true := by
  induction as generalizing bs with
  | nil => left; rfl
  | cons a as ih =>
    cases bs with
    | nil => right; rfl
    | cons b bs =>
      rcases lt_trichotomy a b with h | h | h
      · left; simp [charsLe, h]
      · subst h
        rcases ih bs with h₂ | h₂
        · left; simp [charsLe, lt_irrefl, h₂]
        · right; simp [charsLe, lt_irrefl, h₂]
      · right; simp [charsLe, h]

theorem charsLe_trans (as bs cs : List Char) (h₁ : charsLe as bs = true)
    (h₂ : charsLe bs cs = true) : charsLe as cs = true := by
  induction as generalizing bs cs with
  | nil => rfl
  | cons a as ih =>
    cases bs with
    | nil => simp [charsLe] at h₁
    | cons b bs =>
      cases cs with
      | nil => simp [charsLe] at h₂
      | cons c cs =>
        rcases lt_trichotomy a b with hab | hab | hab
        · rcases lt_trichotomy b c with hbc | hbc | hbc
          · simp [charsLe, lt_trans hab hbc]
          · subst hbc; simp [charsLe, hab]
          · simp [charsLe, hbc, asymm hbc] at h₂
        · subst hab
          rcases lt_trichotomy a c with hac | hac | hac
          · simp [charsLe, hac]
          · subst hac
            simp [charsLe, lt_irrefl] at h₁ h₂ ⊢
            exact ih bs cs h₁ h₂
          · simp [charsLe, hac, asymm hac] at h₂
        · simp [charsLe, hab, asymm hab] at h₁

theorem charsLe_antisymm (as bs : List Char) (h₁ : charsLe as bs = true)
    (h₂ : charsLe bs as = true) : as = bs := by
  induction as generalizing bs with
  | nil =>
    cases bs with
    | nil => rfl
    | cons b bs => simp [charsLe] at h₂
  | cons a as ih =>
    cases bs with
    | nil => simp [charsLe] at h₁
    | cons b bs =>
      rcases lt_trichotomy a b with hab | hab | hab
      · simp [charsLe, hab, asymm hab] at h₂
      · subst hab
        simp [charsLe, lt_irrefl] at h₁ h₂
        rw [ih bs h₁ h₂]
      · simp [charsLe, hab, asymm hab] at h₁

instance : IsTotal String strLeP := ⟨fun a b => charsLe_total a.data b.data⟩

instance : IsTrans String strLeP := ⟨fun a b c => charsLe_trans a.data b.data c.data⟩

theorem str_ext (a b : String) (h : a.data = b.data) : a = b := by
  cases a; cases b; exact congrArg String.mk h

instance : IsAntisymm String strLeP :=
  ⟨fun a b h₁ h₂ => str_ext a b (charsLe_antisymm a.data b.data h₁ h₂)⟩

/-!
Lemmas about key stripping and reindexing.
-/

theorem isPrefixOf_append_self (l₁ l₂ : List Char) : l₁.isPrefixOf (l₁ ++ l₂) = true := by
  induction l₁ with
  | nil => cases l₂ <;> rfl
  | cons a l ih => simp [List.isPrefixOf, ih]

theorem stripSchemaKey_append (s t : String) : stripSchemaKey s (s ++ "." ++ t) = t := by
  have hpre : pyStartswith (s ++ "." ++ t) (s ++ ".") = true := by
    unfold pyStartswith
    rw [String.data_append (s ++ ".") t]
    exact isPrefixOf_append_self _ _
  simp only [stripSchemaKey, hpre, if_true]
  unfold pyDropChars
  have hlen : (s ++ ".").length = (s ++ ".").data.length := rfl
  rw [String.data_append (s ++ ".") t, hlen, List.drop_left]

theorem append_dot_ne (s t : String) : s ++ "." ++ t ≠ t := by
  intro h
  have hlen := congrArg (fun x : String => x.data.length) h
  simp only [String.data_append, List.length_append, List.length_singleton] at hlen
  omega

theorem stripSchemaKey_of_not_startswith (s tab : String)
    (h : pyStartswith tab (s ++ ".") = false) : stripSchemaKey s tab = tab := by
  simp [stripSchemaKey, h]

theorem reindexTables_eq_dictSetAll {V : Type} (s : String)
    (md : List (String × V)) (items : List (String × V)) :
    reindexTables s md items =
      dictSetAll items (md.map (fun p => (stripSchemaKey s p.1, p.2))) := by
  unfold reindexTables dictSetAll
  rw [List.foldl_map]

theorem reindexTables_eq_map {V : Type} (s : String) (md : List (String × V))
    (hn : (md.map (fun p => stripSchemaKey s p.1)).Nodup) :
    reindexTables s md [] = md.map (fun p => (stripSchemaKey s p.1, p.2)) := by
  rw [reindexTables_eq_dictSetAll]
  have hkeys : dictKeys (md.map (fun p => (stripSchemaKey s p.1, p.2))) =
      md.map (fun p => stripSchemaKey s p.1) := by
    simp [dictKeys, List.map_map]
  have hempty : ∀ p ∈ md.map (fun p => (stripSchemaKey s p.1, p.2)),
      dictGet ([] : List (String × V)) p.1 = none := fun _ _ => rfl
  rw [dictSetAll_eq_append _ _ (hkeys ▸ hn) hempty]
  simp

/-- The formatted not-found message always starts with "No ", hence is truthy. -/
theorem notFoundMsg_isEmpty_false (itemType key : String) :
    ("No " ++ itemType ++ " named " ++ sglQuote ++ key ++ sglQuote ++ " was found.").isEmpty
      = false := by
  rw [Bool.eq_false_iff]
  intro h
  have h2 := (String.isEmpty_iff _).1 h
  have h3 := congrArg (fun x : String => x.data.length) h2
  simp only [String.data_append, List.length_append] at h3
  simp at h3

/-!
Claim theorems.
-/

/-- C1: `register_engine` on the Catalog Root (`MetaMeta`) is claimed to store
an `AMetaEngine` for a suspend/resume-capable (async) engine and a
`MetaEngine` otherwise.  The code instead raises
`MetaMetaEngineNotFoundError("inverse_child_claass")` on the async branch,
because it reads the misspelled attribute `inverse_child_claass` (the
defined property is `inverse_child_class`), which falls through to
`__getattr__`.  The sync branch works as claimed. -/
theorem register_engine_async_raises_notfound
    (items : List (String × MetaEngineObj)) (db nm : Option String)
    (h : dictGet items "inverse_child_claass" = none) :
    registerEngine true items true db nm =
      Except.error (PyErr.notFound ErrKind.engine "inverse_child_claass") ∧
    (∀ s : String, nm = some s → s.isEmpty = false →
      registerEngine true items false db nm =
        Except.ok (dictSet items s ⟨RegistryVariant.metaEngine, s⟩)) := by
  constructor
  · simp [registerEngine, h]
  · intro s hs hne
    subst hs
    simp [registerEngine, resolveEngineName, pyFalsyStr, hne]

/-- Witness for C1: a `MetaMeta` root with no registered engines, an async
engine, and an explicit engine name. -/
theorem register_engine_async_raises_notfound_witness :
    registerEngine true [] true none (some "db1") =
      Except.error (PyErr.notFound ErrKind.engine "inverse_child_claass") ∧
    registerEngine true [] false none (some "db1") =
      Except.ok (dictSet [] "db1" ⟨RegistryVariant.metaEngine, "db1"⟩) :=
  have h := register_engine_async_raises_notfound [] none (some "db1") rfl
  ⟨h.1, h.2 "db1" rfl rfl⟩

/-- C5: `resolve_engine_name` returns a non-empty override verbatim regardless
of the connection's database identifier; with an empty or absent override it
returns the engine's database identifier when that is non-empty; when both
are absent or empty it raises the configuration error (`MetaMetaError`). -/
theorem resolve_engine_name_spec (ov db : Option String) :
    (∀ s : String, ov = some s → s.isEmpty = false →
      resolveEngineName ov db = Except.ok s) ∧
    (pyFalsyStr ov = true → ∀ d : String, db = some d → d.isEmpty = false →
      resolveEngineName ov db = Except.ok d) ∧
    (pyFalsyStr ov = true → pyFalsyStr db = true →
      resolveEngineName ov db = Except.error (PyErr.metaMetaError
        "Cannot detect engine name from connection. Specify engine name in arguments.")) := by
  refine ⟨?_, ?_, ?_⟩
  · intro s hs hne
    subst hs
    simp [resolveEngineName, pyFalsyStr, hne]
  · intro hov d hd hne
    subst hd
    unfold resolveEngineName
    simp only [hov]
    simp [pyFalsyStr, hne]
  · intro hov hdb
    simp [resolveEngineName, hov, hdb]

/-- Witness for C5: an explicit override, a fallback to the database
identifier, and the failure case. -/
theorem resolve_engine_name_spec_witness :
    resolveEngineName (some "x") (some "orders_db") = Except.ok "x" ∧
    resolveEngineName none (some "orders_db") = Except.ok "orders_db" ∧
    resolveEngineName none none = Except.error (PyErr.metaMetaError
      "Cannot detect engine name from connection. Specify engine name in arguments.") :=
  ⟨(resolve_engine_name_spec (some "x") (some "orders_db")).1 "x" rfl rfl,
   (resolve_engine_name_spec none (some "orders_db")).2.1 rfl "orders_db" rfl rfl,
   (resolve_engine_name_spec none none).2.2 rfl rfl⟩

/-- C7: registering the same schema name twice leaves exactly one entry under
that key, with the second registration replacing the first, and registration
preserves the no-duplicate-keys invariant. -/
theorem register_schema_idempotent {V : Type} (items : List (String × V))
    (k : String) (v₁ v₂ : V) (h : (dictKeys items).Nodup) :
    dictGet (registerSchema (registerSchema items k v₁) k v₂) k = some v₂ ∧
    (dictKeys (registerSchema items k v₁)).Nodup ∧
    (dictKeys (registerSchema (registerSchema items k v₁) k v₂)).Nodup ∧
    (dictKeys (registerSchema (registerSchema items k v₁) k v₂)).count k = 1 := by
  have h1 : (dictKeys (dictSet items k v₁)).Nodup := dictKeys_dictSet_nodup _ _ _ h
  have h2 : (dictKeys (dictSet (dictSet items k v₁) k v₂)).Nodup :=
    dictKeys_dictSet_nodup _ _ _ h1
  exact ⟨dictGet_dictSet_self _ _ _, h1, h2,
    List.count_eq_one_of_mem h2 (mem_dictKeys_dictSet _ _ _)⟩

/-- Witness for C7: a registry holding one other schema. -/
theorem register_schema_idempotent_witness :
    dictGet (registerSchema (registerSchema [("a", (7 : Nat))] "s" 1) "s" 2) "s" = some 2 ∧
    (dictKeys (registerSchema [("a", (7 : Nat))] "s" 1)).Nodup ∧
    (dictKeys (registerSchema (registerSchema [("a", (7 : Nat))] "s" 1) "s" 2)).Nodup ∧
    (dictKeys (registerSchema (registerSchema [("a", (7 : Nat))] "s" 1) "s" 2)).count "s" = 1 :=
  register_schema_idempotent [("a", 7)] "s" 1 2 (by decide)

/-- C9: the asynchronous registry classes inherit the non-I/O logic from the
synchronous ones unchanged, so query building, name resolution, schema
registration and table reindexing compute identical results for all inputs;
`asyncmeta` overrides only the methods that issue I/O. -/
theorem sync_async_nonio_equal :
    (∀ excl : List (String × String),
      aBuildDiscoverEngineQuery excl = buildDiscoverEngineQuery excl) ∧
    (∀ nm db : Option String, aResolveEngineName nm db = resolveEngineName nm db) ∧
    (∀ (items : List (String × Nat)) (k : String) (v : Nat),
      aRegisterSchema items k v = registerSchema items k v) ∧
    (∀ (s : String) (md items : List (String × Nat)),
      aReindexTables s md items = reindexTables s md items) :=
  ⟨fun _ => rfl, fun _ _ => rfl, fun _ _ _ => rfl, fun _ _ _ => rfl⟩

/-- C10: constructing a not-found error with zero arguments raises the base
`MetaMetaError` demanding a key argument; with at least one argument the
exception arguments are exactly the message
`No <kind> named '<key>' was found.`, followed by the space-join of the
remaining arguments exactly when that join is non-empty. -/
theorem notfound_init_spec (className itemType key : String) (rest : List String) :
    notFoundInitMessages className itemType [] =
      Except.error (PyErr.metaMetaError (className ++ " exceptions requires a key argument")) ∧
    notFoundInitMessages className itemType (key :: rest) =
      Except.ok (if (String.intercalate " " rest).isEmpty
        then ["No " ++ itemType ++ " named " ++ sglQuote ++ key ++ sglQuote ++ " was found."]
        else ["No " ++ itemType ++ " named " ++ sglQuote ++ key ++ sglQuote ++ " was found.",
              String.intercalate " " rest]) := by
  refine ⟨rfl, ?_⟩
  have hmsg := notFoundMsg_isEmpty_false itemType key
  by_cases hj : (String.intercalate " " rest).isEmpty
  · simp [notFoundInitMessages, List.filter, hmsg, hj]
  · simp only [Bool.not_eq_true] at hj
    simp [notFoundInitMessages, List.filter, hmsg, hj]

/-- C2: counterexample — with an empty exclusion mapping the built query text
has an empty WHERE predicate, so it is not a well-formed query. -/
theorem build_discover_query_empty_not_wellformed :
    (buildDiscoverEngineQuery []).2 = [] ∧
    sqlWhereWellFormed (buildDiscoverEngineQuery []).1 = false :=
  ⟨rfl, by decide⟩

/-- C2 amended: the built query is the fixed schema-listing text with one
`schema_name !~ :key` predicate per exclusion pattern, conjoined with
" and ", and the exclusion mapping itself is returned as the parameters;
with an empty mapping the predicate clause is empty and the query text has
an empty WHERE predicate (it is not well-formed). -/
theorem build_discover_query_spec (excl : List (String × String)) :
    buildDiscoverEngineQuery excl =
      ("\n            select schema_name\n            from information_schema.schemata\n            where "
        ++ String.intercalate " and " (excl.map (fun kv => "schema_name !~ :" ++ kv.1))
        ++ "\n            ;\n        ", excl) ∧
    (excl = [] → sqlWhereWellFormed (buildDiscoverEngineQuery excl).1 = false) := by
  constructor
  · cases excl with
    | nil => simp [buildDiscoverEngineQuery, String.intercalate]
    | cons p rest => rfl
  · intro h
    subst h
    decide

/-- Witness for C2 at a one-pattern mapping and at the empty mapping. -/
theorem build_discover_query_spec_witness :
    buildDiscoverEngineQuery [("expr_1", "^pg_")] =
      ("\n            select schema_name\n            from information_schema.schemata\n            where "
        ++ String.intercalate " and "
            ([("expr_1", "^pg_")].map (fun kv => "schema_name !~ :" ++ kv.1))
        ++ "\n            ;\n        ", [("expr_1", "^pg_")]) ∧
    sqlWhereWellFormed (buildDiscoverEngineQuery []).1 = false :=
  ⟨(build_discover_query_spec [("expr_1", "^pg_")]).1,
   (build_discover_query_spec []).2 rfl⟩

/-- C3: counterexample — after registering keys "b" then "a", the `keys()`
sequence is ["b", "a"]: insertion order, not ascending key order. -/
theorem base_keys_not_sorted_counterexample :
    baseKeys (dictSet (dictSet ([] : List (String × Nat)) "b" 0) "a" 1) = ["b", "a"] ∧
    ¬ List.Sorted strLeP
      (baseKeys (dictSet (dictSet ([] : List (String × Nat)) "b" 0) "a" 1)) :=
  ⟨rfl, by decide⟩

/-- C3 amended: `keys()`, `items()` and `values()` enumerate the registry in
insertion (registration) order: registering distinct keys into an empty
registry makes them enumerate in exactly the registration sequence. -/
theorem base_enumeration_insertion_order {V : Type} (ps : List (String × V))
    (h : (dictKeys ps).Nodup) :
    baseKeys (dictSetAll [] ps) = ps.map Prod.fst ∧
    baseItems (dictSetAll [] ps) = ps ∧
    baseValues (dictSetAll [] ps) = ps.map Prod.snd := by
  have hall : dictSetAll ([] : List (String × V)) ps = [] ++ ps :=
    dictSetAll_eq_append ps [] h (fun _ _ => rfl)
  simp only [List.nil_append] at hall
  exact ⟨by simp [baseKeys, dictKeys, hall], by simp [baseItems, hall],
    by simp [baseValues, hall]⟩

/-- Witness for C3 amended: two entries registered in descending key order. -/
theorem base_enumeration_insertion_order_witness :
    baseKeys (dictSetAll [] [("b", (0 : Nat)), ("a", 1)]) = ["b", "a"] ∧
    baseItems (dictSetAll [] [("b", (0 : Nat)), ("a", 1)]) = [("b", 0), ("a", 1)] ∧
    baseValues (dictSetAll [] [("b", (0 : Nat)), ("a", 1)]) = [0, 1] :=
  base_enumeration_insertion_order [("b", 0), ("a", 1)] (by decide)

/-- C8: `list_item_keys()` is a materialized list of exactly the registry's
keys, sorted ascending by the Python string order, and any two registries
holding the same key set yield the same result regardless of registration
order. -/
theorem list_item_keys_sorted_spec {V W : Type} (items : List (String × V))
    (items₂ : List (String × W))
    (hperm : List.Perm (dictKeys items) (dictKeys items₂)) :
    List.Sorted strLeP (listItemKeys items) ∧
    List.Perm (listItemKeys items) (dictKeys items) ∧
    listItemKeys items = listItemKeys items₂ := by
  refine ⟨List.sorted_insertionSort _ _, List.perm_insertionSort _ _, ?_⟩
  apply List.eq_of_perm_of_sorted _ (List.sorted_insertionSort _ _)
    (List.sorted_insertionSort _ _)
  exact ((List.perm_insertionSort strLeP (dictKeys items)).trans hperm).trans
    (List.perm_insertionSort strLeP (dictKeys items₂)).symm

/-- Witness for C8: two registries with the same key set registered in
opposite orders (and different value types). -/
theorem list_item_keys_sorted_spec_witness :
    List.Sorted strLeP (listItemKeys [("b", (0 : Nat)), ("a", 1)]) ∧
    List.Perm (listItemKeys [("b", (0 : Nat)), ("a", 1)])
      (dictKeys [("b", (0 : Nat)), ("a", 1)]) ∧
    listItemKeys [("b", (0 : Nat)), ("a", 1)] = listItemKeys [("a", true), ("b", false)] :=
  list_item_keys_sorted_spec [("b", 0), ("a", 1)] [("a", true), ("b", false)]
    (List.Perm.swap "a" "b" [])

/-- C6: counterexample — "keys" is not registered in an empty `MetaMeta`
root, yet attribute-style lookup returns the genuine `keys` method (Python
resolves real attributes before `__getattr__` runs), so the lookup does not
fail with the typed not-found error as the claim requires. -/
theorem getattr_shadowed_counterexample :
    dictGet ([] : List (String × Nat)) "keys" = none ∧
    getattrImpl metaMetaAttrNames ErrKind.engine ([] : List (String × Nat)) "keys"
      = AttrResult.classAttr ∧
    getattrImpl metaMetaAttrNames ErrKind.engine ([] : List (String × Nat)) "keys"
      ≠ AttrResult.raised (PyErr.notFound ErrKind.engine "keys") := by
  decide

/-- C6 amended: for a key that is neither registered nor the name of a
genuine attribute of the registry class, subscript lookup and attribute
lookup both fail with the typed not-found error carrying the registry's
declared item kind (engine for `MetaMeta`, schema for `MetaEngine`, table
for `MetaSchema`), never a generic missing-attribute error; a key naming a
genuine attribute is resolved to that attribute instead of failing. -/
theorem lookup_miss_typed_error {V : Type} (items : List (String × V)) (k : String)
    (hmiss : dictGet items k = none) :
    getitemImpl ErrKind.engine items k = Except.error (PyErr.notFound ErrKind.engine k) ∧
    getitemImpl ErrKind.schema items k = Except.error (PyErr.notFound ErrKind.schema k) ∧
    getitemImpl ErrKind.table items k = Except.error (PyErr.notFound ErrKind.table k) ∧
    (metaMetaAttrNames.contains k = false →
      getattrImpl metaMetaAttrNames ErrKind.engine items k
        = AttrResult.raised (PyErr.notFound ErrKind.engine k)) ∧
    (metaEngineAttrNames.contains k = false →
      getattrImpl metaEngineAttrNames ErrKind.schema items k
        = AttrResult.raised (PyErr.notFound ErrKind.schema k)) ∧
    (metaSchemaAttrNames.contains k = false →
      getattrImpl metaSchemaAttrNames ErrKind.table items k
        = AttrResult.raised (PyErr.notFound ErrKind.table k)) := by
  refine ⟨?_, ?_, ?_, ?_, ?_, ?_⟩
  · simp [getitemImpl, hmiss]
  · simp [getitemImpl, hmiss]
  · simp [getitemImpl, hmiss]
  · intro hattr
    have hattr2 : k ∉ metaMetaAttrNames := by simpa using hattr
    simp [getattrImpl, hattr2, hmiss]
  · intro hattr
    have hattr2 : k ∉ metaEngineAttrNames := by simpa using hattr
    simp [getattrImpl, hattr2, hmiss]
  · intro hattr
    have hattr2 : k ∉ metaSchemaAttrNames := by simpa using hattr
    simp [getattrImpl, hattr2, hmiss]

/-- Witness for C6 amended: a one-entry registry and a key that is neither
registered nor an attribute name. -/
theorem lookup_miss_typed_error_witness :
    getitemImpl ErrKind.engine [("x", (0 : Nat))] "missing"
      = Except.error (PyErr.notFound ErrKind.engine "missing") ∧
    getitemImpl ErrKind.schema [("x", (0 : Nat))] "missing"
      = Except.error (PyErr.notFound ErrKind.schema "missing") ∧
    getitemImpl ErrKind.table [("x", (0 : Nat))] "missing"
      = Except.error (PyErr.notFound ErrKind.table "missing") ∧
    (metaMetaAttrNames.contains "missing" = false →
      getattrImpl metaMetaAttrNames ErrKind.engine [("x", (0 : Nat))] "missing"
        = AttrResult.raised (PyErr.notFound ErrKind.engine "missing")) ∧
    (metaEngineAttrNames.contains "missing" = false →
      getattrImpl metaEngineAttrNames ErrKind.schema [("x", (0 : Nat))] "missing"
        = AttrResult.raised (PyErr.notFound ErrKind.schema "missing")) ∧
    (metaSchemaAttrNames.contains "missing" = false →
      getattrImpl metaSchemaAttrNames ErrKind.table [("x", (0 : Nat))] "missing"
        = AttrResult.raised (PyErr.notFound ErrKind.table "missing")) :=
  lookup_miss_typed_error [("x", 0)] "missing" (by decide)

/-- C4: counterexample — reflection namespace holding both the qualified key
"s.t" and the unqualified key "t" in schema "s": reindexing maps both to key
"t" and the later assignment wins, so the table reflected under "s.t" is not
reachable under "t" as the claim requires. -/
theorem reindex_tables_collision_counterexample :
    ("s" ++ "." ++ "t", (0 : Nat)) ∈ [("s.t", (0 : Nat)), ("t", 1)] ∧
    dictGet (reindexTables "s" [("s.t", (0 : Nat)), ("t", 1)] []) "t" ≠ some 0 := by
  decide

/-- C4 amended: on a fresh registry, provided reindexing is collision-free
(the stripped keys are pairwise distinct) and distinct reflected keys hold
distinct table objects, a table reflected under the schema-qualified key
`<schema>.<t>` is reachable under the unqualified key `<t>` and not under
the qualified key, and a table whose reflected key does not start with the
`<schema>.` prefix is reachable under that key unchanged. -/
theorem reindex_tables_spec {V : Type} (s t : String) (v : V)
    (md : List (String × V)) (k : String) (w : V)
    (hkeys : (md.map (fun p => stripSchemaKey s p.1)).Nodup)
    (hvals : (md.map Prod.snd).Nodup)
    (hmem : (s ++ "." ++ t, v) ∈ md) :
    dictGet (reindexTables s md []) t = some v ∧
    dictGet (reindexTables s md []) (s ++ "." ++ t) ≠ some v ∧
    ((k, w) ∈ md → pyStartswith k (s ++ ".") = false →
      dictGet (reindexTables s md []) k = some w) := by
  have hmap := reindexTables_eq_map s md hkeys
  have hkeyseq : dictKeys (md.map (fun p => (stripSchemaKey s p.1, p.2))) =
      md.map (fun p => stripSchemaKey s p.1) := by
    simp [dictKeys, List.map_map]
  have hkeys2 : (dictKeys (md.map (fun p => (stripSchemaKey s p.1, p.2)))).Nodup := by
    rw [hkeyseq]; exact hkeys
  refine ⟨?_, ?_, ?_⟩
  · rw [hmap]
    apply dictGet_of_mem_nodup _ _ _ hkeys2
    have hx := List.mem_map_of_mem (fun p : String × V => (stripSchemaKey s p.1, p.2)) hmem
    simpa [stripSchemaKey_append] using hx
  · rw [hmap]
    intro hcontra
    have hm2 := mem_of_dictGet_some _ _ _ hcontra
    rcases List.mem_map.1 hm2 with ⟨p, hpmem, hpeq⟩
    have hp2 : p.2 = v := congrArg Prod.snd hpeq
    have hpe : p = (s ++ "." ++ t, v) :=
      List.inj_on_of_nodup_map hvals hpmem hmem hp2
    have hp1 : stripSchemaKey s p.1 = s ++ "." ++ t := congrArg Prod.fst hpeq
    rw [hpe] at hp1
    rw [stripSchemaKey_append] at hp1
    exact append_dot_ne s t hp1.symm
  · intro hkmem hknp
    rw [hmap]
    apply dictGet_of_mem_nodup _ _ _ hkeys2
    have hx := List.mem_map_of_mem (fun p : String × V => (stripSchemaKey s p.1, p.2)) hkmem
    simpa [stripSchemaKey_of_not_startswith s k hknp] using hx

/-- Witness for C4 amended: schema "s" with a qualified key "s.t" and an
unqualified key "u". -/
theorem reindex_tables_spec_witness :
    dictGet (reindexTables "s" [("s.t", (0 : Nat)), ("u", 1)] []) "t" = some 0 ∧
    dictGet (reindexTables "s" [("s.t", (0 : Nat)), ("u", 1)] []) ("s" ++ "." ++ "t")
      ≠ some 0 ∧
    dictGet (reindexTables "s" [("s.t", (0 : Nat)), ("u", 1)] []) "u" = some 1 :=
  have h := reindex_tables_spec "s" "t" 0 [("s.t", (0 : Nat)), ("u", 1)] "u" 1
    (by decide) (by decide) (by decide)
  ⟨h.1, h.2.1, h.2.2 (by decide) (by decide)⟩
